import Mathlib

/-!
Shallow embedding of the identity & authorization core of the nebula-live
repository: the JWT token manager (package auth), the Argon2id password
hasher (package security), and the RBAC service with its backing stores
(packages service / persistence / entity).

Machine integers (Go uint, uint32, int64) are modelled as Nat; time instants
and Go time.Duration values are Nats counting nanoseconds, matching Go's
time.Duration representation.  Database state is explicit: each Ent table is
a list of rows plus an auto-increment counter.  Fallible Go functions
returning (T, error) become Except‑valued Lean functions.  Creation/update
timestamps and log statements are not modelled: no branch of the translated
code reads them.
-/

namespace Auth

/-- Go time.Duration units (nanoseconds), from the time package. -/
def Second : Nat := 1000000000

/-- Duration of one minute in nanoseconds. -/
def Minute : Nat := 60 * Second

/-- Duration of one hour in nanoseconds. -/
def Hour : Nat := 60 * Minute

/-- TokenConfig from jwt.go: the JWT configuration. -/
structure TokenConfig where
  secretKey : String
  accessTokenTTL : Nat
  refreshTokenTTL : Nat
  issuer : String
  deriving Repr, DecidableEq

/-- DefaultTokenConfig from jwt.go. -/
def DefaultTokenConfig : TokenConfig :=
  { secretKey := "your-secret-key-change-this-in-production"
    accessTokenTTL := 15 * Minute
    refreshTokenTTL := 7 * 24 * Hour
    issuer := "nebula-live" }

/-- Signing method of a JWT; ValidateToken's key function accepts only the
HMAC family (the manager itself always signs with HS256). -/
inductive SigningMethod where
  | HS256
  | RS256
  deriving Repr, DecidableEq

/-- Whether a signing method is in the jwt.SigningMethodHMAC family. -/
def SigningMethod.isHMAC : SigningMethod → Bool
  | .HS256 => true
  | .RS256 => false

/-- UserClaims from jwt.go: user_id, username, email plus the embedded
jwt.RegisteredClaims (expiry, issued-at, not-before, issuer, subject). -/
structure UserClaims where
  userID : Nat
  username : String
  email : String
  expiresAt : Nat
  issuedAt : Nat
  notBefore : Nat
  issuer : String
  subject : String
  deriving Repr, DecidableEq

/-- A signed JWT, modelled symbolically: the claims payload, the signing
method recorded in the header, and the key the signature was produced
with.  Signature verification succeeds exactly when the verifying key
equals the signing key and the method matches. -/
structure SignedToken where
  method : SigningMethod
  key : String
  claims : UserClaims
  deriving Repr, DecidableEq

/-- TokenPair from jwt.go. -/
structure TokenPair where
  accessToken : SignedToken
  refreshToken : SignedToken
  expiresAt : Nat
  tokenType : String
  deriving Repr, DecidableEq

/-- Errors of the token manager (ErrInvalidToken, ErrExpiredToken,
ErrTokenClaims in jwt.go). -/
inductive TokenError where
  | invalidToken
  | expiredToken
  | tokenClaims
  deriving Repr, DecidableEq

/-- JWTManager from jwt.go. -/
structure JWTManager where
  config : TokenConfig
  deriving Repr, DecidableEq

/-- NewJWTManager: a nil config falls back to DefaultTokenConfig. -/
def NewJWTManager (config : Option TokenConfig) : JWTManager :=
  match config with
  | none => { config := DefaultTokenConfig }
  | some c => { config := c }

/-- generateToken from jwt.go: builds UserClaims with the given expiry,
issued-at and not-before both set to the current instant, the configured
issuer, and subject "user_<id>", then signs with HS256 and the configured
secret key.  now is the value of time.Now() during the call. -/
def generateToken (j : JWTManager) (userID : Nat) (username email : String)
    (expiresAt now : Nat) : SignedToken :=
  { method := .HS256
    key := j.config.secretKey
    claims :=
      { userID := userID
        username := username
        email := email
        expiresAt := expiresAt
        issuedAt := now
        notBefore := now
        issuer := j.config.issuer
        subject := "user_" ++ toString userID } }

/-- GenerateTokenPair from jwt.go: two tokens with the same subject fields,
expiring at now + AccessTokenTTL and now + RefreshTokenTTL respectively;
the pair's ExpiresAt field is the access expiry as Unix seconds. -/
def GenerateTokenPair (j : JWTManager) (userID : Nat) (username email : String)
    (now : Nat) : TokenPair :=
  { accessToken := generateToken j userID username email (now + j.config.accessTokenTTL) now
    refreshToken := generateToken j userID username email (now + j.config.refreshTokenTTL) now
    expiresAt := (now + j.config.accessTokenTTL) / Second
    tokenType := "Bearer" }

/-- ValidateToken from jwt.go, with the validation instant explicit.
jwt.ParseWithClaims first runs the key function (which rejects any
non-HMAC method), then verifies the signature, then validates the claims:
the expiry check (valid iff now is strictly before exp) and the not-before
check (valid iff now is at or after nbf).  An expiry failure surfaces as
jwt.ErrTokenExpired and is mapped to ErrExpiredToken; every other parse or
validation failure is mapped to ErrInvalidToken.  The final claims cast in
the Go code cannot fail (parsing always fills a *UserClaims), so
ErrTokenClaims is unreachable and no branch below produces it. -/
def ValidateToken (j : JWTManager) (tok : SignedToken) (now : Nat) :
    Except TokenError UserClaims :=
  if ¬ tok.method.isHMAC then .error .invalidToken
  else if tok.key ≠ j.config.secretKey then .error .invalidToken
  else if tok.claims.expiresAt ≤ now then .error .expiredToken
  else if now < tok.claims.notBefore then .error .invalidToken
  else .ok tok.claims

/-- RefreshToken from jwt.go: validate the given token, then issue a brand
new pair from its claims.  The Go code wraps the validation error with
fmt.Errorf; the underlying TokenError is preserved here. -/
def RefreshToken (j : JWTManager) (tok : SignedToken) (now : Nat) :
    Except TokenError TokenPair :=
  match ValidateToken j tok now with
  | .error e => .error e
  | .ok claims => .ok (GenerateTokenPair j claims.userID claims.username claims.email now)

end Auth

namespace Rbac

/-- Role entity from internal/domain/entity/role.go (timestamps omitted:
   no translated branch reads them). -/
structure Role where
  id : Nat
  name : String
  displayName : String
  description : String
  isSystem : Bool
  deriving Repr, DecidableEq

/-- Permission entity from internal/domain/entity/role.go. -/
structure Permission where
  id : Nat
  name : String
  displayName : String
  description : String
  resource : String
  action : String
  isSystem : Bool
  deriving Repr, DecidableEq

/-- UserRole assignment entity; assignedBy 0 models the NULL column value. -/
structure UserRole where
  id : Nat
  userID : Nat
  roleID : Nat
  assignedBy : Nat
  deriving Repr, DecidableEq

/-- RolePermission assignment entity; assignedBy 0 models NULL. -/
structure RolePermission where
  id : Nat
  roleID : Nat
  permissionID : Nat
  assignedBy : Nat
  deriving Repr, DecidableEq

/-- The backing datastore touched by the RBAC repositories: one list of rows
per Ent table, plus per-table auto-increment counters. -/
structure RBACState where
  roles : List Role
  permissions : List Permission
  userRoles : List UserRole
  rolePermissions : List RolePermission
  nextRoleID : Nat
  nextPermissionID : Nat
  nextUserRoleID : Nat
  nextRolePermissionID : Nat
  deriving Repr, DecidableEq

/-- An empty store, with auto-increment counters starting at 1. -/
def RBACState.empty : RBACState := ⟨[], [], [], [], 1, 1, 1, 1⟩

/-- Errors declared at the top of rbac_service.go. -/
inductive RbacError where
  | roleAlreadyExists
  | roleNotFound
  | systemRoleCannotDelete
  | permissionAlreadyExists
  | permissionNotFound
  | systemPermissionCannotDelete
  | userRoleAlreadyExists
  | userRoleNotFound
  | rolePermissionAlreadyExists
  | rolePermissionNotFound
  deriving Repr, DecidableEq

/-- roleRepository.ExistsByName: existence query on the role name. -/
def roleExistsByName (st : RBACState) (name : String) : Bool :=
  st.roles.any fun r => decide (r.name = name)

/-- roleRepository.GetByName (nil result modelled as none).  Role names are
unique under the schema constraint, so first-match find is the row ent's
Only returns. -/
def roleGetByName (st : RBACState) (name : String) : Option Role :=
  st.roles.find? fun r => decide (r.name = name)

/-- roleRepository.GetByID (nil result modelled as none). -/
def roleGetByID (st : RBACState) (id : Nat) : Option Role :=
  st.roles.find? fun r => decide (r.id = id)

/-- roleRepository.Create: inserts the row, letting the store assign the id. -/
def roleCreate (st : RBACState) (name displayName description : String)
    (isSystem : Bool) : Role × RBACState :=
  let r : Role :=
    { id := st.nextRoleID, name := name, displayName := displayName
      description := description, isSystem := isSystem }
  (r, { st with roles := st.roles ++ [r], nextRoleID := st.nextRoleID + 1 })

/-- roleRepository.Delete (ent DeleteOneID): fails when no row has the id. -/
def roleDelete (st : RBACState) (id : Nat) : Except RbacError RBACState :=
  if st.roles.any fun r => decide (r.id = id) then
    .ok { st with roles := st.roles.filter fun r => decide (¬ r.id = id) }
  else .error .roleNotFound

/-- permissionRepository.ExistsByName. -/
def permissionExistsByName (st : RBACState) (name : String) : Bool :=
  st.permissions.any fun p => decide (p.name = name)

/-- permissionRepository.GetByName (nil result modelled as none). -/
def permissionGetByName (st : RBACState) (name : String) : Option Permission :=
  st.permissions.find? fun p => decide (p.name = name)

/-- permissionRepository.GetByID (nil result modelled as none). -/
def permissionGetByID (st : RBACState) (id : Nat) : Option Permission :=
  st.permissions.find? fun p => decide (p.id = id)

/-- permissionRepository.Create. -/
def permissionCreate (st : RBACState)
    (name displayName description resource action : String)
    (isSystem : Bool) : Permission × RBACState :=
  let p : Permission :=
    { id := st.nextPermissionID, name := name, displayName := displayName
      description := description, resource := resource, action := action
      isSystem := isSystem }
  (p, { st with permissions := st.permissions ++ [p],
                nextPermissionID := st.nextPermissionID + 1 })

/-- permissionRepository.Delete (ent DeleteOneID). -/
def permissionDelete (st : RBACState) (id : Nat) : Except RbacError RBACState :=
  if st.permissions.any fun p => decide (p.id = id) then
    .ok { st with permissions := st.permissions.filter fun p => decide (¬ p.id = id) }
  else .error .permissionNotFound

/-- Byte-wise lexicographic comparison on character lists, the order a SQL
store applies to an ASCII name column. -/
def charListLe : List Char → List Char → Bool
  | [], _ => true
  | _ :: _, [] => false
  | a :: as, b :: bs =>
    if a.toNat < b.toNat then true
    else if b.toNat < a.toNat then false
    else charListLe as bs

/-- Lexicographic comparison of strings. -/
def strLe (a b : String) : Bool := charListLe a.data b.data

/-- Insert into a sorted list, keeping it sorted. -/
def orderedInsertBy (le : α → α → Bool) (x : α) : List α → List α
  | [] => [x]
  | y :: ys => if le x y then x :: y :: ys else y :: orderedInsertBy le x ys

/-- Insertion sort used to model the repository's ORDER BY clauses. -/
def insertionSortBy (le : α → α → Bool) : List α → List α
  | [] => []
  | x :: xs => orderedInsertBy le x (insertionSortBy le xs)

/-- permissionRepository.GetSystemPermissions: rows with is_system true,
ordered ascending by name. -/
def getSystemPermissions (st : RBACState) : List Permission :=
  insertionSortBy (fun a b => strLe a.name b.name)
    (st.permissions.filter fun p => p.isSystem)

/-- userRoleRepository.HasRole: existence query on the (user, role) pair. -/
def userRoleHasRole (st : RBACState) (userID roleID : Nat) : Bool :=
  st.userRoles.any fun ur => decide (ur.userID = userID ∧ ur.roleID = roleID)

/-- userRoleRepository.HasRoleByName: join through the role table. -/
def userRoleHasRoleByName (st : RBACState) (userID : Nat) (roleName : String) : Bool :=
  st.userRoles.any fun ur => decide (ur.userID = userID) &&
    st.roles.any fun r => decide (r.name = roleName ∧ ur.roleID = r.id)

/-- userRoleRepository.AssignRole: unconditional insert (assigned_by always
set from the entity). -/
def userRoleAssign (st : RBACState) (userID roleID assignedBy : Nat) :
    UserRole × RBACState :=
  let ur : UserRole :=
    { id := st.nextUserRoleID, userID := userID, roleID := roleID
      assignedBy := assignedBy }
  (ur, { st with userRoles := st.userRoles ++ [ur],
                 nextUserRoleID := st.nextUserRoleID + 1 })

/-- userRoleRepository.RemoveRole: a bulk delete filtered on the pair; ent's
Delete().Where().Exec reports the number of deleted rows and returns no
error when nothing matched, so this operation never fails. -/
def userRoleRemove (st : RBACState) (userID roleID : Nat) : RBACState :=
  { st with userRoles :=
      st.userRoles.filter fun ur => decide (¬ (ur.userID = userID ∧ ur.roleID = roleID)) }

/-- rolePermissionRepository.HasPermission. -/
def rolePermissionHas (st : RBACState) (roleID permissionID : Nat) : Bool :=
  st.rolePermissions.any fun rp =>
    decide (rp.roleID = roleID ∧ rp.permissionID = permissionID)

/-- rolePermissionRepository.AssignPermission: insert; assigned_by is set
only when non-zero, which coincides with storing the Nat directly. -/
def rolePermissionAssign (st : RBACState) (roleID permissionID assignedBy : Nat) :
    RolePermission × RBACState :=
  let rp : RolePermission :=
    { id := st.nextRolePermissionID, roleID := roleID
      permissionID := permissionID, assignedBy := assignedBy }
  (rp, { st with rolePermissions := st.rolePermissions ++ [rp],
                 nextRolePermissionID := st.nextRolePermissionID + 1 })

/-- rolePermissionRepository.RemovePermission: bulk delete, never fails. -/
def rolePermissionRemove (st : RBACState) (roleID permissionID : Nat) : RBACState :=
  { st with rolePermissions := st.rolePermissions.filter fun rp =>
      decide (¬ (rp.roleID = roleID ∧ rp.permissionID = permissionID)) }

/-- rolePermissionRepository.CheckUserPermission: the single join query; a
permission row with the given resource and action exists that is linked by
a role_permissions row to a role linked by a user_roles row to the user. -/
def CheckUserPermission (st : RBACState) (userID : Nat)
    (resource action : String) : Bool :=
  st.permissions.any fun p =>
    decide (p.resource = resource) && decide (p.action = action) &&
      st.rolePermissions.any fun rp => decide (rp.permissionID = p.id) &&
        st.roles.any fun r => decide (r.id = rp.roleID) &&
          st.userRoles.any fun ur => decide (ur.userID = userID ∧ ur.roleID = r.id)

end Rbac

namespace Rbac

/-- rbacService.CreateRole: name-uniqueness pre-check, then repository
insert. -/
def CreateRole (st : RBACState) (name displayName description : String)
    (isSystem : Bool) : Except RbacError (Role × RBACState) :=
  if roleExistsByName st name then .error .roleAlreadyExists
  else .ok (roleCreate st name displayName description isSystem)

/-- rbacService.GetRoleByID: a nil repository result becomes ErrRoleNotFound. -/
def GetRoleByID (st : RBACState) (id : Nat) : Except RbacError Role :=
  match roleGetByID st id with
  | none => .error .roleNotFound
  | some r => .ok r

/-- rbacService.GetRoleByName. -/
def GetRoleByName (st : RBACState) (name : String) : Except RbacError Role :=
  match roleGetByName st name with
  | none => .error .roleNotFound
  | some r => .ok r

/-- rbacService.DeleteRole: load the role, refuse when is_system, delete
otherwise. -/
def DeleteRole (st : RBACState) (id : Nat) : Except RbacError RBACState := do
  let role ← GetRoleByID st id
  if role.isSystem then .error .systemRoleCannotDelete
  else roleDelete st id

/-- rbacService.CreatePermission. -/
def CreatePermission (st : RBACState)
    (name displayName description resource action : String)
    (isSystem : Bool) : Except RbacError (Permission × RBACState) :=
  if permissionExistsByName st name then .error .permissionAlreadyExists
  else .ok (permissionCreate st name displayName description resource action isSystem)

/-- rbacService.GetPermissionByID. -/
def GetPermissionByID (st : RBACState) (id : Nat) : Except RbacError Permission :=
  match permissionGetByID st id with
  | none => .error .permissionNotFound
  | some p => .ok p

/-- rbacService.GetPermissionByName. -/
def GetPermissionByName (st : RBACState) (name : String) : Except RbacError Permission :=
  match permissionGetByName st name with
  | none => .error .permissionNotFound
  | some p => .ok p

/-- rbacService.DeletePermission. -/
def DeletePermission (st : RBACState) (id : Nat) : Except RbacError RBACState := do
  let permission ← GetPermissionByID st id
  if permission.isSystem then .error .systemPermissionCannotDelete
  else permissionDelete st id

/-- rbacService.AssignRoleToUser: duplicate pre-check, then insert. -/
def AssignRoleToUser (st : RBACState) (userID roleID assignerID : Nat) :
    Except RbacError RBACState :=
  if userRoleHasRole st userID roleID then .error .userRoleAlreadyExists
  else .ok (userRoleAssign st userID roleID assignerID).2

/-- rbacService.RemoveRoleFromUser: a direct pass-through to the
repository's bulk delete — no existence check on any layer. -/
def RemoveRoleFromUser (st : RBACState) (userID roleID : Nat) :
    Except RbacError RBACState :=
  .ok (userRoleRemove st userID roleID)

/-- rbacService.HasRole. -/
def HasRole (st : RBACState) (userID : Nat) (roleName : String) : Bool :=
  userRoleHasRoleByName st userID roleName

/-- rbacService.AssignPermissionToRole. -/
def AssignPermissionToRole (st : RBACState) (roleID permissionID assignerID : Nat) :
    Except RbacError RBACState :=
  if rolePermissionHas st roleID permissionID then .error .rolePermissionAlreadyExists
  else .ok (rolePermissionAssign st roleID permissionID assignerID).2

/-- rbacService.RemovePermissionFromRole: pass-through bulk delete. -/
def RemovePermissionFromRole (st : RBACState) (roleID permissionID : Nat) :
    Except RbacError RBACState :=
  .ok (rolePermissionRemove st roleID permissionID)

/-- rbacService.HasPermission: delegates to the repository's single join
query CheckUserPermission. -/
def HasPermission (st : RBACState) (userID : Nat) (resource action : String) : Bool :=
  CheckUserPermission st userID resource action

/-- Role name constants from entity/role.go. -/
def RoleNameAdmin : String := "admin"

/-- Role name constant for the ordinary user role. -/
def RoleNameUser : String := "user"

/-- Permission name constant user:read from entity/role.go. -/
def PermissionUserRead : String := "user:read"

/-- Seed rows of createSystemRoles: (name, display name, description). -/
def systemRolesData : List (String × String × String) :=
  [(RoleNameAdmin, "管理员", "拥有系统管理权限的管理员"),
   (RoleNameUser, "普通用户", "普通用户角色")]

/-- Seed row of createSystemPermissions. -/
structure SystemPermissionData where
  name : String
  displayName : String
  description : String
  resource : String
  action : String
  deriving Repr, DecidableEq

/-- Seed rows of createSystemPermissions, in source order. -/
def systemPermissionsData : List SystemPermissionData :=
  [⟨"user:read", "查看用户", "查看用户信息的权限", "user", "read"⟩,
   ⟨"user:write", "修改用户", "修改用户信息的权限", "user", "write"⟩,
   ⟨"user:delete", "删除用户", "删除用户的权限", "user", "delete"⟩,
   ⟨"user:manage", "管理用户", "完全管理用户的权限", "user", "manage"⟩,
   ⟨"role:read", "查看角色", "查看角色信息的权限", "role", "read"⟩,
   ⟨"role:write", "修改角色", "修改角色信息的权限", "role", "write"⟩,
   ⟨"role:delete", "删除角色", "删除角色的权限", "role", "delete"⟩,
   ⟨"role:manage", "管理角色", "完全管理角色的权限", "role", "manage"⟩,
   ⟨"permission:read", "查看权限", "查看权限信息的权限", "permission", "read"⟩,
   ⟨"permission:write", "修改权限", "修改权限信息的权限", "permission", "write"⟩,
   ⟨"permission:delete", "删除权限", "删除权限的权限", "permission", "delete"⟩,
   ⟨"permission:manage", "管理权限", "完全管理权限的权限", "permission", "manage"⟩,
   ⟨"system:manage", "系统管理", "系统管理权限", "system", "manage"⟩]

/-- Loop body of rbacService.createSystemRoles: existence check then
CreateRole with is_system true. -/
def createSystemRoleStep (s : RBACState) (rd : String × String × String) :
    Except RbacError RBACState :=
  if roleExistsByName s rd.1 then .ok s
  else (CreateRole s rd.1 rd.2.1 rd.2.2 true).map (·.2)

/-- rbacService.createSystemRoles: the loop over the seed roles. -/
def createSystemRoles (st : RBACState) : Except RbacError RBACState :=
  systemRolesData.foldlM createSystemRoleStep st

/-- Loop body of rbacService.createSystemPermissions: existence check then
CreatePermission with is_system true. -/
def createSystemPermissionStep (s : RBACState) (pd : SystemPermissionData) :
    Except RbacError RBACState :=
  if permissionExistsByName s pd.name then .ok s
  else (CreatePermission s pd.name pd.displayName pd.description
          pd.resource pd.action true).map (·.2)

/-- rbacService.createSystemPermissions: the loop over the seed permissions. -/
def createSystemPermissions (st : RBACState) : Except RbacError RBACState :=
  systemPermissionsData.foldlM createSystemPermissionStep st

/-- Admin loop body of rbacService.assignPermissionsToRoles: guard with the
repository existence check, then insert with assigned_by unset. -/
def adminAssignStep (adminRoleID : Nat) (s : RBACState) (p : Permission) :
    Except RbacError RBACState :=
  if rolePermissionHas s adminRoleID p.id then .ok s
  else .ok (rolePermissionAssign s adminRoleID p.id 0).2

/-- User loop body of rbacService.assignPermissionsToRoles: a failing
permission lookup is skipped (continue); otherwise guard and insert. -/
def userAssignStep (userRoleID : Nat) (s : RBACState) (permName : String) :
    Except RbacError RBACState :=
  match GetPermissionByName s permName with
  | .error _ => .ok s
  | .ok perm =>
    if rolePermissionHas s userRoleID perm.id then .ok s
    else .ok (rolePermissionAssign s userRoleID perm.id 0).2

/-- rbacService.assignPermissionsToRoles: grant every system permission to
the admin role and user:read to the user role, each insert guarded by an
existence check; a failing permission lookup in the user loop is skipped. -/
def assignPermissionsToRoles (st : RBACState) : Except RbacError RBACState := do
  let adminRole ← GetRoleByName st RoleNameAdmin
  let systemPerms := getSystemPermissions st
  let st₁ ← systemPerms.foldlM (adminAssignStep adminRole.id) st
  let userRole ← GetRoleByName st₁ RoleNameUser
  let st₂ ← [PermissionUserRead].foldlM (userAssignStep userRole.id) st₁
  .ok st₂

/-- rbacService.InitializeSystemData: the three bootstrap phases in order. -/
def InitializeSystemData (st : RBACState) : Except RbacError RBACState := do
  let st₁ ← createSystemRoles st
  let st₂ ← createSystemPermissions st₁
  assignPermissionsToRoles st₂

/-- Run InitializeSystemData n times, stopping at the first error. -/
def initRepeat : Nat → RBACState → Except RbacError RBACState
  | 0, st => .ok st
  | n + 1, st => (InitializeSystemData st).bind (initRepeat n)

end Rbac

namespace Auth

/-- Helper: a token from generateToken validates successfully at any instant
in the window from its not-before (= issuance) up to, excluding, its
expiry. -/
theorem validate_gen_ok (j : JWTManager) (userID : Nat) (username email : String)
    (exp now tv : Nat) (h1 : now ≤ tv) (h2 : tv < exp) :
    ValidateToken j (generateToken j userID username email exp now) tv =
      .ok (generateToken j userID username email exp now).claims := by
  simp [ValidateToken, generateToken, SigningMethod.isHMAC,
    Nat.not_le.mpr h2, Nat.not_lt.mpr h1]

/-- Helper: a token from generateToken fails with ExpiredToken at any
instant at or after its expiry. -/
theorem validate_gen_expired (j : JWTManager) (userID : Nat) (username email : String)
    (exp now tv : Nat) (h : exp ≤ tv) :
    ValidateToken j (generateToken j userID username email exp now) tv =
      .error .expiredToken := by
  simp [ValidateToken, generateToken, SigningMethod.isHMAC, h]

/-- Claim C2, counterexample: a token issued at instant 100 with expiry 200
is rejected (with InvalidToken, via the not-before claim) when validated at
instant 50, although 50 is strictly before the expiry 200 — so "validate
succeeds whenever the current time is strictly before T" is false as
stated. -/
theorem validateToken_claimC2_cex :
    (50 < 200) ∧
    ValidateToken (NewJWTManager none)
      (generateToken (NewJWTManager none) 1 "alice" "alice@example.com" 200 100) 50 =
      .error .invalidToken := by
  constructor
  · decide
  · rfl

/-- Claim C2 (amended): for every token issued by generateToken with expiry
instant T, validation succeeds at every instant from the issuance instant
(which the token carries as its not-before claim) up to but excluding T,
and fails with ExpiredToken at every instant at or after T.  Validation at
an instant before issuance fails because of the not-before claim. -/
theorem validateToken_window_claimC2 (j : JWTManager) (userID : Nat)
    (username email : String) (exp now tv : Nat) :
    (now ≤ tv → tv < exp →
      ValidateToken j (generateToken j userID username email exp now) tv =
        .ok (generateToken j userID username email exp now).claims) ∧
    (exp ≤ tv →
      ValidateToken j (generateToken j userID username email exp now) tv =
        .error .expiredToken) :=
  ⟨fun h1 h2 => validate_gen_ok j userID username email exp now tv h1 h2,
   fun h => validate_gen_expired j userID username email exp now tv h⟩

/-- Witness for claim C2's theorem at concrete inputs: issued at 100,
expiry 200, validated at 150 (success) and at 200 (expired). -/
theorem validateToken_window_claimC2_witness :
    ValidateToken (NewJWTManager none)
      (generateToken (NewJWTManager none) 1 "alice" "alice@example.com" 200 100) 150 =
      .ok (generateToken (NewJWTManager none) 1 "alice" "alice@example.com" 200 100).claims ∧
    ValidateToken (NewJWTManager none)
      (generateToken (NewJWTManager none) 1 "alice" "alice@example.com" 200 100) 200 =
      .error .expiredToken :=
  ⟨(validateToken_window_claimC2 (NewJWTManager none) 1 "alice" "alice@example.com"
      200 100 150).1 (by decide) (by decide),
   (validateToken_window_claimC2 (NewJWTManager none) 1 "alice" "alice@example.com"
      200 100 200).2 (by decide)⟩

/-- Claim C6: when validation of the given refresh token succeeds with
claims c, RefreshToken returns exactly the freshly generated pair for
(c.userID, c.username, c.email) — both tokens re-issued at the current
instant — and that pair's access and refresh claims carry the same
user_id, username and email as c; when validation fails, RefreshToken
fails with the same error. -/
theorem refreshToken_claimC6 (j : JWTManager) (tok : SignedToken) (now : Nat) :
    (∀ c, ValidateToken j tok now = .ok c →
      RefreshToken j tok now = .ok (GenerateTokenPair j c.userID c.username c.email now) ∧
      (GenerateTokenPair j c.userID c.username c.email now).accessToken.claims.userID = c.userID ∧
      (GenerateTokenPair j c.userID c.username c.email now).accessToken.claims.username = c.username ∧
      (GenerateTokenPair j c.userID c.username c.email now).accessToken.claims.email = c.email ∧
      (GenerateTokenPair j c.userID c.username c.email now).refreshToken.claims.userID = c.userID ∧
      (GenerateTokenPair j c.userID c.username c.email now).refreshToken.claims.username = c.username ∧
      (GenerateTokenPair j c.userID c.username c.email now).refreshToken.claims.email = c.email ∧
      (GenerateTokenPair j c.userID c.username c.email now).accessToken.claims.issuedAt = now ∧
      (GenerateTokenPair j c.userID c.username c.email now).refreshToken.claims.issuedAt = now) ∧
    (∀ e, ValidateToken j tok now = .error e → RefreshToken j tok now = .error e) := by
  constructor
  · intro c h
    refine ⟨?_, by simp [GenerateTokenPair, generateToken], by simp [GenerateTokenPair, generateToken],
      by simp [GenerateTokenPair, generateToken], by simp [GenerateTokenPair, generateToken],
      by simp [GenerateTokenPair, generateToken], by simp [GenerateTokenPair, generateToken],
      by simp [GenerateTokenPair, generateToken], by simp [GenerateTokenPair, generateToken]⟩
    simp [RefreshToken, h]
  · intro e h
    simp [RefreshToken, h]

/-- Witness for claim C6's theorem: a token issued at 50 with expiry 100 is
refreshed at 60 into the pair for its own subject fields; an expired token
(validated at 150) propagates the error. -/
theorem refreshToken_claimC6_witness :
    RefreshToken (NewJWTManager none)
      (generateToken (NewJWTManager none) 7 "bob" "bob@example.com" 100 50) 60 =
      .ok (GenerateTokenPair (NewJWTManager none) 7 "bob" "bob@example.com" 60) ∧
    RefreshToken (NewJWTManager none)
      (generateToken (NewJWTManager none) 7 "bob" "bob@example.com" 100 50) 150 =
      .error .expiredToken :=
  ⟨((refreshToken_claimC6 (NewJWTManager none)
      (generateToken (NewJWTManager none) 7 "bob" "bob@example.com" 100 50) 60).1
      (generateToken (NewJWTManager none) 7 "bob" "bob@example.com" 100 50).claims
      (by rfl)).1,
   (refreshToken_claimC6 (NewJWTManager none)
      (generateToken (NewJWTManager none) 7 "bob" "bob@example.com" 100 50) 150).2
      .expiredToken (by rfl)⟩

/-- Claim C7: for every issued pair, the access and refresh claims are
identical in every field except the expiry, which is the issuance instant
plus the configured access and refresh TTL respectively; and ValidateToken
accepts an unexpired refresh token exactly as it accepts an unexpired
access token (there is no kind discriminator): each validates to its own
claims on its whole validity window. -/
theorem tokenPair_shape_claimC7 (j : JWTManager) (userID : Nat)
    (username email : String) (now : Nat) :
    (GenerateTokenPair j userID username email now).accessToken.claims =
      { (GenerateTokenPair j userID username email now).refreshToken.claims with
          expiresAt := now + j.config.accessTokenTTL } ∧
    (GenerateTokenPair j userID username email now).accessToken.claims.expiresAt =
      now + j.config.accessTokenTTL ∧
    (GenerateTokenPair j userID username email now).refreshToken.claims.expiresAt =
      now + j.config.refreshTokenTTL ∧
    (∀ tv, now ≤ tv → tv < now + j.config.refreshTokenTTL →
      ValidateToken j (GenerateTokenPair j userID username email now).refreshToken tv =
        .ok (GenerateTokenPair j userID username email now).refreshToken.claims) ∧
    (∀ tv, now ≤ tv → tv < now + j.config.accessTokenTTL →
      ValidateToken j (GenerateTokenPair j userID username email now).accessToken tv =
        .ok (GenerateTokenPair j userID username email now).accessToken.claims) := by
  refine ⟨by simp [GenerateTokenPair, generateToken], by simp [GenerateTokenPair, generateToken],
    by simp [GenerateTokenPair, generateToken], fun tv h1 h2 => ?_, fun tv h1 h2 => ?_⟩
  · exact validate_gen_ok j userID username email (now + j.config.refreshTokenTTL) now tv h1 h2
  · exact validate_gen_ok j userID username email (now + j.config.accessTokenTTL) now tv h1 h2

/-- Witness for claim C7's theorem at a concrete manager and instant, with
the refresh token validated one instant before its expiry. -/
theorem tokenPair_shape_claimC7_witness :
    ValidateToken (NewJWTManager (some ⟨"k", 10, 20, "iss"⟩))
      (GenerateTokenPair (NewJWTManager (some ⟨"k", 10, 20, "iss"⟩)) 3 "eve" "eve@x.io" 100).refreshToken 119 =
      .ok (GenerateTokenPair (NewJWTManager (some ⟨"k", 10, 20, "iss"⟩)) 3 "eve" "eve@x.io" 100).refreshToken.claims :=
  (tokenPair_shape_claimC7 (NewJWTManager (some ⟨"k", 10, 20, "iss"⟩)) 3 "eve" "eve@x.io" 100).2.2.2.1
    119 (by decide) (by decide)

/-- Claim C10: constructing the manager with a nil config yields the same
manager as constructing it with DefaultTokenConfig — whose fields are the
hard-coded secret key, 15-minute access TTL, 7-day refresh TTL and issuer
"nebula-live" — so every subsequent issue, validate and refresh call
behaves identically. -/
theorem newJWTManager_nil_claimC10 :
    NewJWTManager none = NewJWTManager (some DefaultTokenConfig) ∧
    DefaultTokenConfig =
      ⟨"your-secret-key-change-this-in-production", 15 * Minute, 7 * 24 * Hour, "nebula-live"⟩ ∧
    (∀ userID username email now,
      GenerateTokenPair (NewJWTManager none) userID username email now =
        GenerateTokenPair (NewJWTManager (some DefaultTokenConfig)) userID username email now) ∧
    (∀ tok now,
      ValidateToken (NewJWTManager none) tok now =
        ValidateToken (NewJWTManager (some DefaultTokenConfig)) tok now) ∧
    (∀ tok now,
      RefreshToken (NewJWTManager none) tok now =
        RefreshToken (NewJWTManager (some DefaultTokenConfig)) tok now) :=
  ⟨rfl, rfl, fun _ _ _ _ => rfl, fun _ _ => rfl, fun _ _ => rfl⟩

end Auth

namespace Rbac

/-- Claim C1: the Authorization Engine's HasPermission(userID, resource,
action) is true exactly when some role row assigned to the user (through a
user_roles row) is linked by a role_permissions row to a permission row
with exactly that resource and action. -/
theorem hasPermission_iff_role_chain (st : RBACState) (userID : Nat)
    (resource action : String) :
    HasPermission st userID resource action = true ↔
      ∃ r ∈ st.roles,
        (∃ ur ∈ st.userRoles, ur.userID = userID ∧ ur.roleID = r.id) ∧
        ∃ p ∈ st.permissions, p.resource = resource ∧ p.action = action ∧
          ∃ rp ∈ st.rolePermissions, rp.roleID = r.id ∧ rp.permissionID = p.id := by
  simp only [HasPermission, CheckUserPermission, List.any_eq_true, Bool.and_eq_true,
    decide_eq_true_eq]
  constructor
  · rintro ⟨p, hp, ⟨hres, hact⟩, rp, hrp, hpid, r, hr, hrid, ur, hur, huid, hurid⟩
    exact ⟨r, hr, ⟨ur, hur, huid, hurid⟩, p, hp, hres, hact, rp, hrp, hrid.symm, hpid⟩
  · rintro ⟨r, hr, ⟨ur, hur, huid, hurid⟩, p, hp, hres, hact, rp, hrp, hrid, hpid⟩
    exact ⟨p, hp, ⟨hres, hact⟩, rp, hrp, hpid, r, hr, hrid.symm, ur, hur, huid, hurid⟩

/-- Claim C4 (code evaluated at the failing input): on a store with no
assignments at all, removing role 2 from user 1 — an assignment that does
not exist — returns success with the store unchanged, instead of the
NotFound/NotAssigned failure the claim requires.  The whole chain
(rbacService.RemoveRoleFromUser → userRoleRepository.RemoveRole, an
unguarded bulk delete) performs no existence check, although the service
declares ErrUserRoleNotFound and the HTTP handler maps it to a 404. -/
theorem removeRole_absent_claimC4 :
    userRoleHasRole RBACState.empty 1 2 = false ∧
    RemoveRoleFromUser RBACState.empty 1 2 = .ok RBACState.empty := by
  constructor
  · rfl
  · rfl

/-- Claim C5: whenever the role (or permission) row with the requested id
exists and carries is_system = true, DeleteRole (or DeletePermission)
fails with the system-protected error — unconditionally, there being no
caller identity in the signature — and, since the repository delete is
then never invoked, the row stays in the store (an error here carries no
successor state). -/
theorem delete_system_protected_claimC5 (st : RBACState) (rid pid : Nat)
    (r : Role) (p : Permission) :
    (roleGetByID st rid = some r → r.isSystem = true →
      DeleteRole st rid = .error .systemRoleCannotDelete) ∧
    (permissionGetByID st pid = some p → p.isSystem = true →
      DeletePermission st pid = .error .systemPermissionCannotDelete) := by
  constructor
  · intro h hs
    simp [DeleteRole, GetRoleByID, h, hs, bind, Except.bind]
  · intro h hs
    simp [DeletePermission, GetPermissionByID, h, hs, bind, Except.bind]

/-- Witness for claim C5's theorem: a store holding the system role admin
(id 1) and the system permission user:read (id 1); both deletes fail with
the protected error. -/
theorem delete_system_protected_claimC5_witness :
    DeleteRole
      { RBACState.empty with roles := [⟨1, "admin", "管理员", "", true⟩] } 1 =
      .error .systemRoleCannotDelete ∧
    DeletePermission
      { RBACState.empty with
          permissions := [⟨1, "user:read", "查看用户", "", "user", "read", true⟩] } 1 =
      .error .systemPermissionCannotDelete :=
  ⟨(delete_system_protected_claimC5
      { RBACState.empty with roles := [⟨1, "admin", "管理员", "", true⟩] } 1 1
      ⟨1, "admin", "管理员", "", true⟩
      ⟨1, "user:read", "查看用户", "", "user", "read", true⟩).1 (by rfl) (by rfl),
   (delete_system_protected_claimC5
      { RBACState.empty with
          permissions := [⟨1, "user:read", "查看用户", "", "user", "read", true⟩] } 1 1
      ⟨1, "admin", "管理员", "", true⟩
      ⟨1, "user:read", "查看用户", "", "user", "read", true⟩).2 (by rfl) (by rfl)⟩

end Rbac

namespace Rbac

/-- The store produced by running InitializeSystemData on an empty store
(the error branch is never taken, as the claim C9 theorem certifies). -/
def bootState : RBACState :=
  match InitializeSystemData RBACState.empty with
  | .ok st => st
  | .error _ => RBACState.empty

/-- Claim C9: bootstrap on an empty store creates exactly the system roles
admin (id 1) and user (id 2), the fixed 13-permission system catalog
(read/write/delete/manage on each of user, role and permission, plus
system:manage), grants the admin role every one of those 13 permissions,
and grants the user role exactly the single (user, read) permission. -/
theorem bootstrap_catalog_claimC9 :
    InitializeSystemData RBACState.empty = .ok bootState ∧
    bootState.roles.map (fun r => (r.name, r.isSystem)) =
      [(RoleNameAdmin, true), (RoleNameUser, true)] ∧
    bootState.permissions.map (fun p => (p.resource, p.action, p.isSystem)) =
      [("user", "read", true), ("user", "write", true),
       ("user", "delete", true), ("user", "manage", true),
       ("role", "read", true), ("role", "write", true),
       ("role", "delete", true), ("role", "manage", true),
       ("permission", "read", true), ("permission", "write", true),
       ("permission", "delete", true), ("permission", "manage", true),
       ("system", "manage", true)] ∧
    bootState.permissions.length = 13 ∧
    (roleGetByName bootState RoleNameAdmin).map (fun r => r.id) = some 1 ∧
    (roleGetByName bootState RoleNameUser).map (fun r => r.id) = some 2 ∧
    (bootState.permissions.all fun p => rolePermissionHas bootState 1 p.id) = true ∧
    ((bootState.rolePermissions.filter fun rp => decide (rp.roleID = 2)).map
        fun rp => rp.permissionID) = [1] ∧
    (permissionGetByName bootState PermissionUserRead).map (fun p => p.id) = some 1 := by
  refine ⟨rfl, by decide, by decide, by decide, by decide, by decide, by decide,
    by decide, by decide⟩

end Rbac

namespace Rbac

/-- Phase effect of createSystemRoles: every table except roles unchanged,
role rows only added. -/
def RoleExt (s s' : RBACState) : Prop :=
  s'.permissions = s.permissions ∧ s'.userRoles = s.userRoles ∧
  s'.rolePermissions = s.rolePermissions ∧ ∀ r ∈ s.roles, r ∈ s'.roles

/-- Phase effect of createSystemPermissions. -/
def PermExt (s s' : RBACState) : Prop :=
  s'.roles = s.roles ∧ s'.userRoles = s.userRoles ∧
  s'.rolePermissions = s.rolePermissions ∧ ∀ p ∈ s.permissions, p ∈ s'.permissions

/-- Phase effect of the assignment loops. -/
def RpExt (s s' : RBACState) : Prop :=
  s'.roles = s.roles ∧ s'.permissions = s.permissions ∧ s'.userRoles = s.userRoles ∧
  ∀ rp ∈ s.rolePermissions, rp ∈ s'.rolePermissions

/-- Role-name uniqueness of a store. -/
def rolesNamesNodup (s : RBACState) : Prop :=
  (s.roles.map fun r => r.name).Nodup

/-- Permission-name uniqueness of a store. -/
def permNamesNodup (s : RBACState) : Prop :=
  (s.permissions.map fun p => p.name).Nodup

/-- Uniqueness of (role, permission) assignment pairs. -/
def rpPairsNodup (s : RBACState) : Prop :=
  (s.rolePermissions.map fun rp => (rp.roleID, rp.permissionID)).Nodup

theorem roleExists_mono {s s' : RBACState} (h : ∀ r ∈ s.roles, r ∈ s'.roles)
    {n : String} (he : roleExistsByName s n = true) : roleExistsByName s' n = true := by
  simp only [roleExistsByName, List.any_eq_true, decide_eq_true_eq] at he ⊢
  obtain ⟨r, hr, hrn⟩ := he
  exact ⟨r, h r hr, hrn⟩

theorem permExists_mono {s s' : RBACState}
    (h : ∀ p ∈ s.permissions, p ∈ s'.permissions) {n : String}
    (he : permissionExistsByName s n = true) : permissionExistsByName s' n = true := by
  simp only [permissionExistsByName, List.any_eq_true, decide_eq_true_eq] at he ⊢
  obtain ⟨p, hp, hpn⟩ := he
  exact ⟨p, h p hp, hpn⟩

theorem rpHas_mono {s s' : RBACState}
    (h : ∀ rp ∈ s.rolePermissions, rp ∈ s'.rolePermissions) {a b : Nat}
    (he : rolePermissionHas s a b = true) : rolePermissionHas s' a b = true := by
  simp only [rolePermissionHas, List.any_eq_true, decide_eq_true_eq] at he ⊢
  obtain ⟨rp, hrp, hab⟩ := he
  exact ⟨rp, h rp hrp, hab⟩

theorem roleExists_getByName {s : RBACState} {n : String}
    (he : roleExistsByName s n = true) :
    ∃ r, roleGetByName s n = some r ∧ r.name = n := by
  simp only [roleExistsByName, List.any_eq_true, decide_eq_true_eq] at he
  obtain ⟨r, hr, hrn⟩ := he
  have : (s.roles.find? fun r => decide (r.name = n)).isSome := by
    rw [List.find?_isSome]
    exact ⟨r, hr, by simp [hrn]⟩
  obtain ⟨r', hr'⟩ := Option.isSome_iff_exists.mp this
  refine ⟨r', hr', ?_⟩
  have := List.find?_some hr'
  simpa using this

theorem permExists_getByName {s : RBACState} {n : String}
    (he : permissionExistsByName s n = true) :
    ∃ p, permissionGetByName s n = some p ∧ p.name = n := by
  simp only [permissionExistsByName, List.any_eq_true, decide_eq_true_eq] at he
  obtain ⟨p, hp, hpn⟩ := he
  have : (s.permissions.find? fun p => decide (p.name = n)).isSome := by
    rw [List.find?_isSome]
    exact ⟨p, hp, by simp [hpn]⟩
  obtain ⟨p', hp'⟩ := Option.isSome_iff_exists.mp this
  refine ⟨p', hp', ?_⟩
  have := List.find?_some hp'
  simpa using this

end Rbac

namespace Rbac

theorem createSystemRoles_run (l : List (String × String × String)) (st : RBACState) :
    ∃ st', l.foldlM createSystemRoleStep st = .ok st' ∧ RoleExt st st' ∧
      (∀ d ∈ l, roleExistsByName st' d.1 = true) ∧
      (rolesNamesNodup st → rolesNamesNodup st') := by
  induction l generalizing st with
  | nil =>
    exact ⟨st, rfl, ⟨rfl, rfl, rfl, fun _ h => h⟩, by simp, fun h => h⟩
  | cons d ds ih =>
    by_cases hex : roleExistsByName st d.1
    · obtain ⟨st', hfold, hext, hall, hnd⟩ := ih st
      refine ⟨st', ?_, hext, ?_, hnd⟩
      · simp [List.foldlM_cons, createSystemRoleStep, hex, hfold, bind, Except.bind]
      · intro e he
        rcases List.mem_cons.mp he with rfl | hmem
        · exact roleExists_mono hext.2.2.2 hex
        · exact hall e hmem
    · obtain ⟨st', hfold, hext, hall, hnd⟩ := ih (roleCreate st d.1 d.2.1 d.2.2 true).2
      have hstep : createSystemRoleStep st d = .ok (roleCreate st d.1 d.2.1 d.2.2 true).2 := by
        simp [createSystemRoleStep, hex, CreateRole, Except.map]
      have hroles : (roleCreate st d.1 d.2.1 d.2.2 true).2.roles =
          st.roles ++ [⟨st.nextRoleID, d.1, d.2.1, d.2.2, true⟩] := rfl
      have hmem₁ : ∀ r ∈ st.roles, r ∈ (roleCreate st d.1 d.2.1 d.2.2 true).2.roles := by
        intro r hr; rw [hroles]; exact List.mem_append_left _ hr
      refine ⟨st', ?_, ?_, ?_, ?_⟩
      · simp [List.foldlM_cons, hstep, hfold, bind, Except.bind]
      · exact ⟨hext.1, hext.2.1, hext.2.2.1,
          fun r hr => hext.2.2.2 r (hmem₁ r hr)⟩
      · intro e he
        rcases List.mem_cons.mp he with rfl | hmem
        · refine roleExists_mono hext.2.2.2 ?_
          simp [roleExistsByName, roleCreate]
        · exact hall e hmem
      · intro h
        refine hnd ?_
        have hnot : d.1 ∉ st.roles.map fun r => r.name := by
          intro hmem
          obtain ⟨r, hr, hrn⟩ := List.mem_map.mp hmem
          refine hex ?_
          simp only [roleExistsByName, List.any_eq_true, decide_eq_true_eq]
          exact ⟨r, hr, hrn⟩
        simp only [rolesNamesNodup, hroles, List.map_append, List.map_cons, List.map_nil]
        rw [List.nodup_append]
        refine ⟨h, List.nodup_singleton _, ?_⟩
        rw [List.disjoint_singleton]
        exact hnot

end Rbac

namespace Rbac

theorem createSystemRoles_noop (l : List (String × String × String)) (st : RBACState)
    (h : ∀ d ∈ l, roleExistsByName st d.1 = true) :
    l.foldlM createSystemRoleStep st = .ok st := by
  induction l with
  | nil => rfl
  | cons d ds ih =>
    have hd : roleExistsByName st d.1 = true := h d (List.mem_cons_self d ds)
    have hstep : createSystemRoleStep st d = .ok st := by
      simp [createSystemRoleStep, hd]
    simp [List.foldlM_cons, hstep, bind, Except.bind,
      ih fun e he => h e (List.mem_cons_of_mem d he)]

theorem createSystemPermissions_run (l : List SystemPermissionData) (st : RBACState) :
    ∃ st', l.foldlM createSystemPermissionStep st = .ok st' ∧ PermExt st st' ∧
      (∀ pd ∈ l, permissionExistsByName st' pd.name = true) ∧
      (permNamesNodup st → permNamesNodup st') := by
  induction l generalizing st with
  | nil =>
    exact ⟨st, rfl, ⟨rfl, rfl, rfl, fun _ h => h⟩, by simp, fun h => h⟩
  | cons d ds ih =>
    by_cases hex : permissionExistsByName st d.name
    · obtain ⟨st', hfold, hext, hall, hnd⟩ := ih st
      refine ⟨st', ?_, hext, ?_, hnd⟩
      · simp [List.foldlM_cons, createSystemPermissionStep, hex, hfold, bind, Except.bind]
      · intro e he
        rcases List.mem_cons.mp he with rfl | hmem
        · exact permExists_mono hext.2.2.2 hex
        · exact hall e hmem
    · obtain ⟨st', hfold, hext, hall, hnd⟩ :=
        ih (permissionCreate st d.name d.displayName d.description d.resource d.action true).2
      have hstep : createSystemPermissionStep st d =
          .ok (permissionCreate st d.name d.displayName d.description d.resource d.action true).2 := by
        simp [createSystemPermissionStep, hex, CreatePermission, Except.map]
      have hperms : (permissionCreate st d.name d.displayName d.description d.resource d.action true).2.permissions =
          st.permissions ++ [⟨st.nextPermissionID, d.name, d.displayName, d.description, d.resource, d.action, true⟩] := rfl
      have hmem₁ : ∀ p ∈ st.permissions,
          p ∈ (permissionCreate st d.name d.displayName d.description d.resource d.action true).2.permissions := by
        intro p hp; rw [hperms]; exact List.mem_append_left _ hp
      refine ⟨st', ?_, ?_, ?_, ?_⟩
      · simp [List.foldlM_cons, hstep, hfold, bind, Except.bind]
      · exact ⟨hext.1, hext.2.1, hext.2.2.1,
          fun p hp => hext.2.2.2 p (hmem₁ p hp)⟩
      · intro e he
        rcases List.mem_cons.mp he with rfl | hmem
        · refine permExists_mono hext.2.2.2 ?_
          simp [permissionExistsByName, permissionCreate]
        · exact hall e hmem
      · intro h
        refine hnd ?_
        have hnot : d.name ∉ st.permissions.map fun p => p.name := by
          intro hmem
          obtain ⟨p, hp, hpn⟩ := List.mem_map.mp hmem
          refine hex ?_
          simp only [permissionExistsByName, List.any_eq_true, decide_eq_true_eq]
          exact ⟨p, hp, hpn⟩
        simp only [permNamesNodup, hperms, List.map_append, List.map_cons, List.map_nil]
        rw [List.nodup_append]
        refine ⟨h, List.nodup_singleton _, ?_⟩
        rw [List.disjoint_singleton]
        exact hnot

theorem createSystemPermissions_noop (l : List SystemPermissionData) (st : RBACState)
    (h : ∀ pd ∈ l, permissionExistsByName st pd.name = true) :
    l.foldlM createSystemPermissionStep st = .ok st := by
  induction l with
  | nil => rfl
  | cons d ds ih =>
    have hd : permissionExistsByName st d.name = true := h d (List.mem_cons_self d ds)
    have hstep : createSystemPermissionStep st d = .ok st := by
      simp [createSystemPermissionStep, hd]
    simp [List.foldlM_cons, hstep, bind, Except.bind,
      ih fun e he => h e (List.mem_cons_of_mem d he)]

theorem adminLoop_run (aid : Nat) (l : List Permission) (st : RBACState) :
    ∃ st', l.foldlM (adminAssignStep aid) st = .ok st' ∧ RpExt st st' ∧
      (∀ p ∈ l, rolePermissionHas st' aid p.id = true) ∧
      (rpPairsNodup st → rpPairsNodup st') := by
  induction l generalizing st with
  | nil =>
    exact ⟨st, rfl, ⟨rfl, rfl, rfl, fun _ h => h⟩, by simp, fun h => h⟩
  | cons p ps ih =>
    by_cases hex : rolePermissionHas st aid p.id
    · obtain ⟨st', hfold, hext, hall, hnd⟩ := ih st
      refine ⟨st', ?_, hext, ?_, hnd⟩
      · simp [List.foldlM_cons, adminAssignStep, hex, hfold, bind, Except.bind]
      · intro q hq
        rcases List.mem_cons.mp hq with rfl | hmem
        · exact rpHas_mono hext.2.2.2 hex
        · exact hall q hmem
    · obtain ⟨st', hfold, hext, hall, hnd⟩ := ih (rolePermissionAssign st aid p.id 0).2
      have hstep : adminAssignStep aid st p = .ok (rolePermissionAssign st aid p.id 0).2 := by
        simp [adminAssignStep, hex]
      have hrps : (rolePermissionAssign st aid p.id 0).2.rolePermissions =
          st.rolePermissions ++ [⟨st.nextRolePermissionID, aid, p.id, 0⟩] := rfl
      have hmem₁ : ∀ rp ∈ st.rolePermissions,
          rp ∈ (rolePermissionAssign st aid p.id 0).2.rolePermissions := by
        intro rp hrp; rw [hrps]; exact List.mem_append_left _ hrp
      refine ⟨st', ?_, ?_, ?_, ?_⟩
      · simp [List.foldlM_cons, hstep, hfold, bind, Except.bind]
      · exact ⟨hext.1, hext.2.1, hext.2.2.1,
          fun rp hrp => hext.2.2.2 rp (hmem₁ rp hrp)⟩
      · intro q hq
        rcases List.mem_cons.mp hq with rfl | hmem
        · refine rpHas_mono hext.2.2.2 ?_
          simp [rolePermissionHas, rolePermissionAssign]
        · exact hall q hmem
      · intro h
        refine hnd ?_
        have hnot : (aid, p.id) ∉ st.rolePermissions.map fun rp => (rp.roleID, rp.permissionID) := by
          intro hmem
          obtain ⟨rp, hrp, hpair⟩ := List.mem_map.mp hmem
          refine hex ?_
          simp only [rolePermissionHas, List.any_eq_true, decide_eq_true_eq]
          exact ⟨rp, hrp, congrArg Prod.fst hpair, congrArg Prod.snd hpair⟩
        simp only [rpPairsNodup, hrps, List.map_append, List.map_cons, List.map_nil]
        rw [List.nodup_append]
        refine ⟨h, List.nodup_singleton _, ?_⟩
        rw [List.disjoint_singleton]
        exact hnot

theorem adminLoop_noop (aid : Nat) (l : List Permission) (st : RBACState)
    (h : ∀ p ∈ l, rolePermissionHas st aid p.id = true) :
    l.foldlM (adminAssignStep aid) st = .ok st := by
  induction l with
  | nil => rfl
  | cons p ps ih =>
    have hp : rolePermissionHas st aid p.id = true := h p (List.mem_cons_self p ps)
    have hstep : adminAssignStep aid st p = .ok st := by
      simp [adminAssignStep, hp]
    simp [List.foldlM_cons, hstep, bind, Except.bind,
      ih fun q hq => h q (List.mem_cons_of_mem p hq)]

end Rbac

namespace Rbac

theorem exceptBind_ok (a : α) (f : α → Except RbacError β) :
    (Except.ok a >>= f) = f a := rfl

theorem roleExistsByName_congr {s s' : RBACState} (h : s'.roles = s.roles)
    (n : String) : roleExistsByName s' n = roleExistsByName s n := by
  simp [roleExistsByName, h]

theorem roleGetByName_congr {s s' : RBACState} (h : s'.roles = s.roles)
    (n : String) : roleGetByName s' n = roleGetByName s n := by
  simp [roleGetByName, h]

theorem permissionExistsByName_congr {s s' : RBACState}
    (h : s'.permissions = s.permissions) (n : String) :
    permissionExistsByName s' n = permissionExistsByName s n := by
  simp [permissionExistsByName, h]

theorem permissionGetByName_congr {s s' : RBACState}
    (h : s'.permissions = s.permissions) (n : String) :
    permissionGetByName s' n = permissionGetByName s n := by
  simp [permissionGetByName, h]

theorem getSystemPermissions_congr {s s' : RBACState}
    (h : s'.permissions = s.permissions) :
    getSystemPermissions s' = getSystemPermissions s := by
  simp [getSystemPermissions, h]

theorem userAssignStep_ok {s : RBACState} {uid : Nat} {n : String} {perm : Permission}
    (h : GetPermissionByName s n = .ok perm) :
    userAssignStep uid s n =
      if rolePermissionHas s uid perm.id then .ok s
      else .ok (rolePermissionAssign s uid perm.id 0).2 := by
  rw [userAssignStep, h]

theorem initialize_fix (st st' : RBACState)
    (h : InitializeSystemData st = .ok st') :
    InitializeSystemData st' = .ok st' ∧
    (rolesNamesNodup st → rolesNamesNodup st') ∧
    (permNamesNodup st → permNamesNodup st') ∧
    (rpPairsNodup st → rpPairsNodup st') := by
  obtain ⟨st1, hA, hAext, hAall, hAnd⟩ := createSystemRoles_run systemRolesData st
  obtain ⟨st2, hB, hBext, hBall, hBnd⟩ := createSystemPermissions_run systemPermissionsData st1
  have hA' : createSystemRoles st = .ok st1 := hA
  have hB' : createSystemPermissions st1 = .ok st2 := hB
  simp only [InitializeSystemData] at h
  rw [hA', exceptBind_ok, hB', exceptBind_ok] at h
  -- h : assignPermissionsToRoles st2 = .ok st'
  have hAdm1 : roleExistsByName st1 RoleNameAdmin = true :=
    hAall (RoleNameAdmin, "管理员", "拥有系统管理权限的管理员") (by simp [systemRolesData])
  have hUser1 : roleExistsByName st1 RoleNameUser = true :=
    hAall (RoleNameUser, "普通用户", "普通用户角色") (by simp [systemRolesData])
  have hAdm2 : roleExistsByName st2 RoleNameAdmin = true := by
    rw [roleExistsByName_congr hBext.1]; exact hAdm1
  obtain ⟨adminR, hAdmGet, hAdmName⟩ := roleExists_getByName hAdm2
  have hAdmGet' : GetRoleByName st2 RoleNameAdmin = .ok adminR := by
    simp [GetRoleByName, hAdmGet]
  obtain ⟨st3, hC, hCext, hCall, hCnd⟩ := adminLoop_run adminR.id (getSystemPermissions st2) st2
  simp only [assignPermissionsToRoles] at h
  rw [hAdmGet', exceptBind_ok, hC, exceptBind_ok] at h
  have hUser3 : roleExistsByName st3 RoleNameUser = true := by
    rw [roleExistsByName_congr hCext.1, roleExistsByName_congr hBext.1]; exact hUser1
  obtain ⟨userR, hUserGet, hUserName⟩ := roleExists_getByName hUser3
  have hUserGet' : GetRoleByName st3 RoleNameUser = .ok userR := by
    simp [GetRoleByName, hUserGet]
  rw [hUserGet', exceptBind_ok] at h
  have hPerm2 : permissionExistsByName st2 PermissionUserRead = true :=
    hBall ⟨"user:read", "查看用户", "查看用户信息的权限", "user", "read"⟩
      (by simp [systemPermissionsData])
  have hPerm3 : permissionExistsByName st3 PermissionUserRead = true := by
    rw [permissionExistsByName_congr hCext.2.1]; exact hPerm2
  obtain ⟨permR, hPermGet, hPermName⟩ := permExists_getByName hPerm3
  have hPermGet' : GetPermissionByName st3 PermissionUserRead = .ok permR := by
    simp [GetPermissionByName, hPermGet]
  simp only [List.foldlM_cons, List.foldlM_nil] at h
  rw [userAssignStep_ok hPermGet'] at h
  have hfin : st'.roles = st3.roles ∧ st'.permissions = st3.permissions ∧
      (∀ rp ∈ st3.rolePermissions, rp ∈ st'.rolePermissions) ∧
      rolePermissionHas st' userR.id permR.id = true ∧
      (rpPairsNodup st3 → rpPairsNodup st') := by
    by_cases hHas : rolePermissionHas st3 userR.id permR.id
    · rw [if_pos hHas] at h
      have : st3 = st' := by simpa [exceptBind_ok] using h
      subst this
      exact ⟨rfl, rfl, fun _ hrp => hrp, hHas, fun hh => hh⟩
    · rw [if_neg hHas] at h
      have : (rolePermissionAssign st3 userR.id permR.id 0).2 = st' := by
        simpa [exceptBind_ok] using h
      subst this
      refine ⟨rfl, rfl, fun rp hrp => List.mem_append_left _ hrp, ?_, ?_⟩
      · simp [rolePermissionHas, rolePermissionAssign]
      · intro hh
        have hnot : (userR.id, permR.id) ∉
            st3.rolePermissions.map fun rp => (rp.roleID, rp.permissionID) := by
          intro hmem
          obtain ⟨rp, hrp, hpair⟩ := List.mem_map.mp hmem
          refine hHas ?_
          simp only [rolePermissionHas, List.any_eq_true, decide_eq_true_eq]
          exact ⟨rp, hrp, congrArg Prod.fst hpair, congrArg Prod.snd hpair⟩
        simp only [rpPairsNodup, rolePermissionAssign, List.map_append, List.map_cons,
          List.map_nil]
        rw [List.nodup_append]
        refine ⟨hh, List.nodup_singleton _, ?_⟩
        rw [List.disjoint_singleton]
        exact hnot
  have hrEq : st'.roles = st1.roles := by rw [hfin.1, hCext.1, hBext.1]
  have hpEq : st'.permissions = st2.permissions := by rw [hfin.2.1, hCext.2.1]
  refine ⟨?_, ?_, ?_, ?_⟩
  · -- second run is the identity
    have hA2 : createSystemRoles st' = .ok st' :=
      createSystemRoles_noop systemRolesData st' (by
        intro d hd
        rw [roleExistsByName_congr hrEq]
        exact hAall d hd)
    have hB2 : createSystemPermissions st' = .ok st' :=
      createSystemPermissions_noop systemPermissionsData st' (by
        intro pd hpd
        rw [permissionExistsByName_congr hpEq]
        exact hBall pd hpd)
    have hAdmGet2 : GetRoleByName st' RoleNameAdmin = .ok adminR := by
      have : roleGetByName st' RoleNameAdmin = some adminR := by
        rw [roleGetByName_congr (by rw [hrEq, ← hBext.1] : st'.roles = st2.roles)]
        exact hAdmGet
      simp [GetRoleByName, this]
    have hsys2 : getSystemPermissions st' = getSystemPermissions st2 :=
      getSystemPermissions_congr hpEq
    have hC2 : (getSystemPermissions st').foldlM (adminAssignStep adminR.id) st' = .ok st' := by
      rw [hsys2]
      refine adminLoop_noop adminR.id (getSystemPermissions st2) st' ?_
      intro p hp
      exact rpHas_mono hfin.2.2.1 (hCall p hp)
    have hUserGet2 : GetRoleByName st' RoleNameUser = .ok userR := by
      have : roleGetByName st' RoleNameUser = some userR := by
        rw [roleGetByName_congr hfin.1]
        exact hUserGet
      simp [GetRoleByName, this]
    have hPermGet2 : GetPermissionByName st' PermissionUserRead = .ok permR := by
      have : permissionGetByName st' PermissionUserRead = some permR := by
        rw [permissionGetByName_congr hfin.2.1]
        exact hPermGet
      simp [GetPermissionByName, this]
    simp only [InitializeSystemData]
    rw [hA2, exceptBind_ok, hB2, exceptBind_ok]
    simp only [assignPermissionsToRoles]
    rw [hAdmGet2, exceptBind_ok, hC2, exceptBind_ok, hUserGet2, exceptBind_ok]
    simp only [List.foldlM_cons, List.foldlM_nil]
    rw [userAssignStep_ok hPermGet2, if_pos hfin.2.2.2.1]
    rfl
  · intro hnd
    have h1 := hAnd hnd
    simpa [rolesNamesNodup, hrEq] using h1
  · intro hnd
    have h0 : permNamesNodup st1 := by
      simpa [permNamesNodup, hAext.1] using hnd
    have h2 := hBnd h0
    simpa [permNamesNodup, hpEq] using h2
  · intro hnd
    have h1 : rpPairsNodup st1 := by
      simpa [rpPairsNodup, hAext.2.2.1] using hnd
    have h2 : rpPairsNodup st2 := by
      simpa [rpPairsNodup, hBext.2.2.1] using h1
    exact hfin.2.2.2.2 (hCnd h2)

end Rbac

namespace Rbac

/-- Claim C8: if one run of InitializeSystemData turns store st into st',
then every further run leaves st' exactly as it is and returns no error —
so N runs (N at least 1) produce the same final roles, permissions and
assignments as one run — and no duplicate rows are created: uniqueness of
role names, permission names and (role, permission) assignment pairs is
preserved from st to st'. -/
theorem initializeSystemData_idem_claimC8 (st st' : RBACState) (n : Nat)
    (h : InitializeSystemData st = .ok st') :
    initRepeat n st' = .ok st' ∧
    (rolesNamesNodup st → rolesNamesNodup st') ∧
    (permNamesNodup st → permNamesNodup st') ∧
    (rpPairsNodup st → rpPairsNodup st') := by
  obtain ⟨hfix, h1, h2, h3⟩ := initialize_fix st st' h
  refine ⟨?_, h1, h2, h3⟩
  induction n with
  | zero => rfl
  | succ n ih =>
    simp only [initRepeat]
    rw [hfix]
    exact ih

/-- Witness for claim C8's theorem: bootstrap on the empty store, repeated
three further times, keeps the bootstrapped store fixed, and the
bootstrapped store has unique role names, permission names and assignment
pairs. -/
theorem initializeSystemData_idem_claimC8_witness :
    initRepeat 3 bootState = .ok bootState ∧ rolesNamesNodup bootState ∧
    permNamesNodup bootState ∧ rpPairsNodup bootState :=
  ⟨(initializeSystemData_idem_claimC8 RBACState.empty bootState 3 rfl).1,
   (initializeSystemData_idem_claimC8 RBACState.empty bootState 3 rfl).2.1
     (by simp [rolesNamesNodup, RBACState.empty]),
   (initializeSystemData_idem_claimC8 RBACState.empty bootState 3 rfl).2.2.1
     (by simp [permNamesNodup, RBACState.empty]),
   (initializeSystemData_idem_claimC8 RBACState.empty bootState 3 rfl).2.2.2
     (by simp [rpPairsNodup, RBACState.empty])⟩

end Rbac

namespace Security

/-- PasswordConfig from pkg/security/password.go. -/
structure PasswordConfig where
  memory : Nat
  iterations : Nat
  parallelism : Nat
  saltLength : Nat
  keyLength : Nat
  deriving Repr, DecidableEq

/-- DefaultPasswordConfig from password.go: 64 MiB memory, 3 iterations,
parallelism 2, 16-byte salt, 32-byte key. -/
def DefaultPasswordConfig : PasswordConfig :=
  { memory := 64 * 1024, iterations := 3, parallelism := 2
    saltLength := 16, keyLength := 32 }

/-- The key-derivation function argon2.IDKey, abstracted: arguments are
password, salt, time (iterations), memory, threads (parallelism) and key
length, in the order of the Go call; the result is the derived key as a
byte list. -/
def KDF : Type := String → List Nat → Nat → Nat → Nat → Nat → List Nat

/-- argon2.Version (0x13). -/
def argon2Version : Nat := 19

/-- Character of the standard base64 alphabet at index n (n < 64). -/
def b64Char (n : Nat) : Char :=
  if n < 26 then Char.ofNat (65 + n)
  else if n < 52 then Char.ofNat (97 + (n - 26))
  else if n < 62 then Char.ofNat (48 + (n - 52))
  else if n = 62 then '+'
  else '/'

/-- Index of a character in the standard base64 alphabet. -/
def b64DecChar (c : Char) : Option Nat :=
  if 65 ≤ c.toNat ∧ c.toNat ≤ 90 then some (c.toNat - 65)
  else if 97 ≤ c.toNat ∧ c.toNat ≤ 122 then some (c.toNat - 97 + 26)
  else if 48 ≤ c.toNat ∧ c.toNat ≤ 57 then some (c.toNat - 48 + 52)
  else if c = '+' then some 62
  else if c = '/' then some 63
  else none

/-- base64.RawStdEncoding.EncodeToString: unpadded standard-alphabet
encoding, three bytes to four characters. -/
def b64Encode : List Nat → List Char
  | [] => []
  | [a] => [b64Char (a / 4), b64Char (a % 4 * 16)]
  | [a, b] => [b64Char (a / 4), b64Char (a % 4 * 16 + b / 16), b64Char (b % 16 * 4)]
  | a :: b :: c :: rest =>
    b64Char (a / 4) :: b64Char (a % 4 * 16 + b / 16) ::
      b64Char (b % 16 * 4 + c / 64) :: b64Char (c % 64) :: b64Encode rest

/-- base64.RawStdEncoding.DecodeString: four characters back to three
bytes; a single trailing character is invalid. -/
def b64Decode : List Char → Option (List Nat)
  | [] => some []
  | [_] => none
  | [c1, c2] =>
    match b64DecChar c1, b64DecChar c2 with
    | some d1, some d2 => some [d1 * 4 + d2 / 16]
    | _, _ => none
  | [c1, c2, c3] =>
    match b64DecChar c1, b64DecChar c2, b64DecChar c3 with
    | some d1, some d2, some d3 => some [d1 * 4 + d2 / 16, d2 % 16 * 16 + d3 / 4]
    | _, _, _ => none
  | c1 :: c2 :: c3 :: c4 :: rest =>
    match b64DecChar c1, b64DecChar c2, b64DecChar c3, b64DecChar c4, b64Decode rest with
    | some d1, some d2, some d3, some d4, some bs =>
      some ((d1 * 4 + d2 / 16) :: (d2 % 16 * 16 + d3 / 4) :: (d3 % 4 * 64 + d4) :: bs)
    | _, _, _, _, _ => none

/-- Structural helper for decimal printing: the first argument is fuel, and
any fuel at least n computes the digits of n. -/
def natToDigitsAux : Nat → Nat → List Char
  | 0, n => [Nat.digitChar n]
  | fuel + 1, n =>
    if n < 10 then [Nat.digitChar n]
    else natToDigitsAux fuel (n / 10) ++ [Nat.digitChar (n % 10)]

/-- Decimal digit characters of n, most significant first (the %d verb). -/
def natToDigits (n : Nat) : List Char := natToDigitsAux n n

/-- Whether c is a decimal digit character. -/
def isDigitChar (c : Char) : Bool :=
  decide (48 ≤ c.toNat ∧ c.toNat ≤ 57)

/-- Numeric value of a digit character. -/
def digitVal (c : Char) : Nat := c.toNat - 48

/-- Accumulate the value of a decimal digit run. -/
def foldDigits : List Char → Nat → Nat
  | [], acc => acc
  | c :: cs, acc => foldDigits cs (acc * 10 + digitVal c)

/-- Split a character list into its maximal leading digit run and the rest. -/
def takeDigits : List Char → List Char × List Char
  | [] => ([], [])
  | c :: cs =>
    if isDigitChar c then
      let (d, r) := takeDigits cs
      (c :: d, r)
    else ([], c :: cs)

/-- Parse a leading decimal number (at least one digit), returning it with
the unconsumed rest — the behaviour of the %d verb of fmt.Sscanf. -/
def parseNatPrefix (cs : List Char) : Option (Nat × List Char) :=
  match takeDigits cs with
  | ([], _) => none
  | (ds, rest) => some (foldDigits ds 0, rest)

/-- strings.Split on a single-character separator. -/
def splitOnChar (sep : Char) : List Char → List (List Char)
  | [] => [[]]
  | c :: cs =>
    if c = sep then [] :: splitOnChar sep cs
    else
      match splitOnChar sep cs with
      | [] => [[c]]
      | h :: t => (c :: h) :: t

/-- fmt.Sscanf(field, "v=%d"). -/
def parseVersionField (cs : List Char) : Option Nat :=
  match cs with
  | 'v' :: '=' :: rest => (parseNatPrefix rest).map (fun x => x.1)
  | _ => none

/-- fmt.Sscanf(field, "m=%d,t=%d,p=%d"). -/
def parseParamsField (cs : List Char) : Option (Nat × Nat × Nat) :=
  match cs with
  | 'm' :: '=' :: r1 =>
    match parseNatPrefix r1 with
    | none => none
    | some (m, r2) =>
      match r2 with
      | ',' :: 't' :: '=' :: r3 =>
        match parseNatPrefix r3 with
        | none => none
        | some (t, r4) =>
          match r4 with
          | ',' :: 'p' :: '=' :: r5 =>
            match parseNatPrefix r5 with
            | none => none
            | some (p, _) => some (m, t, p)
          | _ => none
      | _ => none
  | _ => none

/-- Errors of decodeHash and its parsers. -/
inductive PassError where
  | invalidHashFormat
  | versionScanFailed
  | incompatibleVersion
  | paramsScanFailed
  | invalidBase64
  deriving Repr, DecidableEq

/-- The characters of the encoded hash produced by fmt.Sprintf with format
dollar argon2id, dollar v=%d, dollar m=%d,t=%d,p=%d, dollar salt, dollar
hash (salt and hash base64-encoded). -/
def encodedHashChars (config : PasswordConfig) (salt hash : List Nat) : List Char :=
  '$' :: ("argon2id".data ++
    '$' :: ('v' :: '=' :: natToDigits argon2Version ++
      '$' :: ('m' :: '=' :: natToDigits config.memory ++
          ',' :: 't' :: '=' :: natToDigits config.iterations ++
          ',' :: 'p' :: '=' :: natToDigits config.parallelism ++
        '$' :: (b64Encode salt ++
          '$' :: b64Encode hash))))

/-- HashPasswordWithConfig from password.go: derive the key from the given
salt (the Go code draws the salt from crypto/rand; here it is an input)
and build the self-describing encoded string. -/
def HashPasswordWithConfig (kdf : KDF) (password : String)
    (config : PasswordConfig) (salt : List Nat) : String :=
  let hash := kdf password salt config.iterations config.memory
    config.parallelism config.keyLength
  String.mk (encodedHashChars config salt hash)

/-- decodeHash from password.go: split on the dollar separator, require
exactly six fields, scan and check the version, scan the parameters,
base64-decode salt and hash; the salt and key lengths of the returned
config are the decoded lengths.  (The algorithm-name field is never
inspected, exactly as in the source.) -/
def decodeHash (encodedHash : String) :
    Except PassError (PasswordConfig × List Nat × List Nat) :=
  match splitOnChar '$' encodedHash.data with
  | [_, _, v2, v3, v4, v5] =>
    match parseVersionField v2 with
    | none => .error .versionScanFailed
    | some version =>
      if version ≠ argon2Version then .error .incompatibleVersion
      else
        match parseParamsField v3 with
        | none => .error .paramsScanFailed
        | some (m, t, p) =>
          match b64Decode v4 with
          | none => .error .invalidBase64
          | some salt =>
            match b64Decode v5 with
            | none => .error .invalidBase64
            | some hash =>
              .ok (⟨m, t, p, salt.length, hash.length⟩, salt, hash)
  | _ => .error .invalidHashFormat

/-- subtle.ConstantTimeCompare as a boolean: 1 exactly when the two byte
slices are equal (length included). -/
def constantTimeCompare (a b : List Nat) : Bool := decide (a = b)

/-- VerifyPassword from password.go: decode, re-derive with the decoded
parameters, compare. -/
def VerifyPassword (kdf : KDF) (password encodedHash : String) :
    Except PassError Bool :=
  match decodeHash encodedHash with
  | .error e => .error e
  | .ok (config, salt, hash) =>
    let otherHash := kdf password salt config.iterations config.memory
      config.parallelism config.keyLength
    .ok (constantTimeCompare hash otherHash)

end Security

namespace Security

theorem digitChar_props : ∀ k, k < 10 →
    isDigitChar (Nat.digitChar k) = true ∧ digitVal (Nat.digitChar k) = k := by
  decide

theorem natToDigitsAux_fuel (n : Nat) : ∀ fuel fuel', n ≤ fuel → n ≤ fuel' →
    natToDigitsAux fuel n = natToDigitsAux fuel' n := by
  induction n using Nat.strong_induction_on with
  | _ n ih =>
    intro fuel fuel' h h'
    match fuel, fuel' with
    | 0, 0 => rfl
    | 0, f' + 1 =>
      have : n = 0 := by omega
      subst this
      simp [natToDigitsAux]
    | f + 1, 0 =>
      have : n = 0 := by omega
      subst this
      simp [natToDigitsAux]
    | f + 1, f' + 1 =>
      by_cases h10 : n < 10
      · simp [natToDigitsAux, h10]
      · simp only [natToDigitsAux, if_neg h10]
        rw [ih (n / 10) (by omega) f f' (by omega) (by omega)]

theorem natToDigits_step (n : Nat) : natToDigits n =
    if n < 10 then [Nat.digitChar n]
    else natToDigits (n / 10) ++ [Nat.digitChar (n % 10)] := by
  match n with
  | 0 => rfl
  | m + 1 =>
    by_cases h10 : m + 1 < 10
    · simp [natToDigits, natToDigitsAux, h10]
    · simp only [natToDigits, natToDigitsAux, if_neg h10]
      rw [natToDigitsAux_fuel ((m + 1) / 10) m ((m + 1) / 10) (by omega) (by omega)]

theorem natToDigits_digits (n : Nat) : ∀ c ∈ natToDigits n, isDigitChar c = true := by
  induction n using Nat.strong_induction_on with
  | _ n ih =>
    rw [natToDigits_step]
    split
    · intro c hc
      simp only [List.mem_singleton] at hc
      subst hc
      exact (digitChar_props n (by omega)).1
    · intro c hc
      rcases List.mem_append.mp hc with h1 | h2
      · exact ih (n / 10) (by omega) c h1
      · simp only [List.mem_singleton] at h2
        subst h2
        exact (digitChar_props (n % 10) (by omega)).1

theorem natToDigits_ne_nil (n : Nat) : natToDigits n ≠ [] := by
  rw [natToDigits_step]
  split
  · simp
  · simp

theorem foldDigits_append (xs : List Char) (c : Char) (acc : Nat) :
    foldDigits (xs ++ [c]) acc = 10 * foldDigits xs acc + digitVal c := by
  induction xs generalizing acc with
  | nil => simp [foldDigits]; omega
  | cons x xs ih => simp [foldDigits, ih]

theorem foldDigits_natToDigits (n acc : Nat) :
    foldDigits (natToDigits n) acc = acc * 10 ^ (natToDigits n).length + n := by
  induction n using Nat.strong_induction_on generalizing acc with
  | _ n ih =>
    rw [natToDigits_step]
    split
    · rename_i h
      simp [foldDigits, (digitChar_props n h).2]
    · rename_i h
      rw [foldDigits_append, ih (n / 10) (by omega) acc, (digitChar_props (n % 10) (by omega)).2]
      have hmod : 10 * (n / 10) + n % 10 = n := Nat.div_add_mod n 10
      simp only [List.length_append, List.length_singleton]
      calc 10 * (acc * 10 ^ (natToDigits (n / 10)).length + n / 10) + n % 10
          = acc * (10 ^ (natToDigits (n / 10)).length * 10) + (10 * (n / 10) + n % 10) := by
            ring
        _ = acc * 10 ^ ((natToDigits (n / 10)).length + 1) + n := by
            rw [← pow_succ, hmod]

end Security

namespace Security

/-- Whether a character list is empty or starts with a non-digit. -/
def headNotDigit : List Char → Prop
  | [] => True
  | c :: _ => isDigitChar c = false

theorem takeDigits_append (ds rest : List Char)
    (hd : ∀ c ∈ ds, isDigitChar c = true) (hr : headNotDigit rest) :
    takeDigits (ds ++ rest) = (ds, rest) := by
  induction ds with
  | nil =>
    match rest with
    | [] => rfl
    | c :: cs =>
      simp only [headNotDigit] at hr
      simp [takeDigits, hr]
  | cons d ds ih =>
    have hd0 : isDigitChar d = true := hd d (List.mem_cons_self d ds)
    simp [takeDigits, hd0, ih fun c hc => hd c (List.mem_cons_of_mem d hc)]

theorem parseNatPrefix_natToDigits (n : Nat) (rest : List Char) (hr : headNotDigit rest) :
    parseNatPrefix (natToDigits n ++ rest) = some (n, rest) := by
  rw [parseNatPrefix, takeDigits_append (natToDigits n) rest (natToDigits_digits n) hr]
  have hne := natToDigits_ne_nil n
  match hnd : natToDigits n with
  | [] => exact absurd hnd hne
  | d :: ds =>
    have := foldDigits_natToDigits n 0
    rw [hnd] at this
    simp only [this, zero_mul, zero_add]

theorem parseNatPrefix_natToDigits' (n : Nat) :
    parseNatPrefix (natToDigits n) = some (n, []) := by
  have := parseNatPrefix_natToDigits n [] trivial
  simpa using this

theorem splitOnChar_nosep (sep : Char) (xs : List Char) (h : ∀ c ∈ xs, ¬ c = sep) :
    splitOnChar sep xs = [xs] := by
  induction xs with
  | nil => rfl
  | cons c cs ih =>
    have hc : ¬ c = sep := h c (List.mem_cons_self c cs)
    rw [splitOnChar, if_neg hc, ih fun d hd => h d (List.mem_cons_of_mem c hd)]

theorem splitOnChar_break (sep : Char) (xs ys : List Char) (h : ∀ c ∈ xs, ¬ c = sep) :
    splitOnChar sep (xs ++ sep :: ys) = xs :: splitOnChar sep ys := by
  induction xs with
  | nil =>
    simp only [List.nil_append]
    rw [splitOnChar, if_pos rfl]
  | cons c cs ih =>
    have hc : ¬ c = sep := h c (List.mem_cons_self c cs)
    simp only [List.cons_append]
    rw [splitOnChar, if_neg hc, ih fun d hd => h d (List.mem_cons_of_mem c hd)]

theorem split_encoded (A V P S H : List Char)
    (hA : ∀ c ∈ A, ¬ c = '$') (hV : ∀ c ∈ V, ¬ c = '$')
    (hP : ∀ c ∈ P, ¬ c = '$') (hS : ∀ c ∈ S, ¬ c = '$')
    (hH : ∀ c ∈ H, ¬ c = '$') :
    splitOnChar '$'
      ('$' :: (A ++ '$' :: (V ++ '$' :: (P ++ '$' :: (S ++ '$' :: H))))) =
      [[], A, V, P, S, H] := by
  rw [show ('$' :: (A ++ '$' :: (V ++ '$' :: (P ++ '$' :: (S ++ '$' :: H))))) =
      ([] ++ '$' :: (A ++ '$' :: (V ++ '$' :: (P ++ '$' :: (S ++ '$' :: H))))) from rfl]
  rw [splitOnChar_break _ _ _ (by simp), splitOnChar_break _ _ _ hA,
    splitOnChar_break _ _ _ hV, splitOnChar_break _ _ _ hP,
    splitOnChar_break _ _ _ hS, splitOnChar_nosep _ _ hH]

end Security

namespace Security

theorem b64DecChar_b64Char : ∀ n, n < 64 → b64DecChar (b64Char n) = some n := by
  decide

theorem b64Char_ne_dollar : ∀ n, n < 64 → ¬ b64Char n = '$' := by
  decide

theorem b64Encode_no_dollar (bs : List Nat) (h : ∀ b ∈ bs, b < 256) :
    ∀ c ∈ b64Encode bs, ¬ c = '$' := by
  induction bs using b64Encode.induct with
  | case1 => simp [b64Encode]
  | case2 a =>
    have ha : a < 256 := h a (by simp)
    intro c hc
    simp only [b64Encode, List.mem_cons, List.mem_singleton, List.not_mem_nil, or_false] at hc
    rcases hc with rfl | rfl
    · exact b64Char_ne_dollar _ (by omega)
    · exact b64Char_ne_dollar _ (by omega)
  | case3 a b =>
    have ha : a < 256 := h a (by simp)
    have hb : b < 256 := h b (by simp)
    intro c hc
    simp only [b64Encode, List.mem_cons, List.not_mem_nil, or_false] at hc
    rcases hc with rfl | rfl | rfl
    · exact b64Char_ne_dollar _ (by omega)
    · exact b64Char_ne_dollar _ (by omega)
    · exact b64Char_ne_dollar _ (by omega)
  | case4 a b c rest ih =>
    have ha : a < 256 := h a (by simp)
    have hb : b < 256 := h b (by simp)
    have hc256 : c < 256 := h c (by simp)
    intro d hd
    simp only [b64Encode, List.mem_cons] at hd
    rcases hd with rfl | rfl | rfl | rfl | hmem
    · exact b64Char_ne_dollar _ (by omega)
    · exact b64Char_ne_dollar _ (by omega)
    · exact b64Char_ne_dollar _ (by omega)
    · exact b64Char_ne_dollar _ (by omega)
    · exact ih (fun x hx => h x (by simp [hx])) d hmem

end Security

namespace Security

theorem b64_roundtrip (bs : List Nat) (h : ∀ b ∈ bs, b < 256) :
    b64Decode (b64Encode bs) = some bs := by
  induction bs using b64Encode.induct with
  | case1 => rfl
  | case2 a =>
    have ha : a < 256 := h a (by simp)
    rw [b64Encode, b64Decode, b64DecChar_b64Char _ (by omega),
      b64DecChar_b64Char _ (by omega)]
    simp only [Option.some.injEq, List.cons.injEq, and_true]
    omega
  | case3 a b =>
    have ha : a < 256 := h a (by simp)
    have hb : b < 256 := h b (by simp)
    rw [b64Encode, b64Decode, b64DecChar_b64Char _ (by omega),
      b64DecChar_b64Char _ (by omega), b64DecChar_b64Char _ (by omega)]
    simp only [Option.some.injEq, List.cons.injEq, and_true]
    constructor
    · omega
    · omega
  | case4 a b c rest ih =>
    have ha : a < 256 := h a (by simp)
    have hb : b < 256 := h b (by simp)
    have hc : c < 256 := h c (by simp)
    have hrest := ih fun x hx => h x (by simp [hx])
    rw [b64Encode, b64Decode, b64DecChar_b64Char _ (by omega),
      b64DecChar_b64Char _ (by omega), b64DecChar_b64Char _ (by omega),
      b64DecChar_b64Char _ (by omega), hrest]
    simp only [Option.some.injEq, List.cons.injEq]
    refine ⟨by omega, by omega, by omega, trivial⟩

end Security

namespace Security

theorem isDigitChar_ne_dollar (c : Char) (h : isDigitChar c = true) : ¬ c = '$' := by
  intro he
  subst he
  exact absurd h (by decide)

theorem headNotDigit_comma (rest : List Char) : headNotDigit (',' :: rest) := by
  show isDigitChar ',' = false
  decide

theorem decodeHash_encodedHashChars (config : PasswordConfig) (salt hash : List Nat)
    (hs : ∀ b ∈ salt, b < 256) (hh : ∀ b ∈ hash, b < 256) :
    decodeHash (String.mk (encodedHashChars config salt hash)) =
      .ok (⟨config.memory, config.iterations, config.parallelism,
            salt.length, hash.length⟩, salt, hash) := by
  have hV : ∀ c ∈ 'v' :: '=' :: natToDigits argon2Version, ¬ c = '$' := by
    intro c hc
    simp only [List.mem_cons] at hc
    rcases hc with rfl | rfl | hc
    · decide
    · decide
    · exact isDigitChar_ne_dollar c (natToDigits_digits _ c hc)
  have hP : ∀ c ∈ ('m' :: '=' :: (natToDigits config.memory ++
      ',' :: 't' :: '=' :: (natToDigits config.iterations ++
        ',' :: 'p' :: '=' :: natToDigits config.parallelism))), ¬ c = '$' := by
    intro c hc
    simp only [List.mem_cons, List.mem_append] at hc
    rcases hc with rfl | rfl | (hc | rfl | rfl | rfl | (hc | rfl | rfl | rfl | hc))
    · decide
    · decide
    · exact isDigitChar_ne_dollar c (natToDigits_digits _ c hc)
    · decide
    · decide
    · decide
    · exact isDigitChar_ne_dollar c (natToDigits_digits _ c hc)
    · decide
    · decide
    · decide
    · exact isDigitChar_ne_dollar c (natToDigits_digits _ c hc)
  have hgrp : encodedHashChars config salt hash =
      '$' :: ("argon2id".data ++ '$' :: (('v' :: '=' :: natToDigits argon2Version) ++ '$' ::
        (('m' :: '=' :: (natToDigits config.memory ++
            ',' :: 't' :: '=' :: (natToDigits config.iterations ++
              ',' :: 'p' :: '=' :: natToDigits config.parallelism))) ++ '$' ::
          (b64Encode salt ++ '$' :: b64Encode hash)))) := by
    simp [encodedHashChars]
  have hver : parseVersionField ('v' :: '=' :: natToDigits argon2Version) =
      some argon2Version := by
    simp [parseVersionField, parseNatPrefix_natToDigits' argon2Version]
  have hpar : parseParamsField ('m' :: '=' :: (natToDigits config.memory ++
      ',' :: 't' :: '=' :: (natToDigits config.iterations ++
        ',' :: 'p' :: '=' :: natToDigits config.parallelism))) =
      some (config.memory, config.iterations, config.parallelism) := by
    simp only [parseParamsField]
    rw [parseNatPrefix_natToDigits _ _ (headNotDigit_comma _)]
    simp only []
    rw [parseNatPrefix_natToDigits _ _ (headNotDigit_comma _)]
    simp only []
    rw [parseNatPrefix_natToDigits' config.parallelism]
  unfold decodeHash
  rw [show (String.mk (encodedHashChars config salt hash)).data =
      encodedHashChars config salt hash from rfl]
  rw [hgrp, split_encoded _ _ _ _ _ (by decide) hV hP
    (b64Encode_no_dollar salt hs) (b64Encode_no_dollar hash hh)]
  simp only [hver, hpar, b64_roundtrip salt hs, b64_roundtrip hash hh]
  simp [argon2Version]

end Security

namespace Security

/-- Claim C3: for any length-honest byte-valued key-derivation function
(argon2.IDKey abstracted as a parameter), verifying a password against its
own hash — built from a random salt and encoded as algorithm id, version,
parameters, salt and key in one string — parses that string back,
re-derives with identical parameters and succeeds; verifying a different
password fails whenever the key it derives from the recorded salt and
parameters differs from the stored key (collision-freedom of Argon2id at
this point is a cryptographic assumption, not a provable fact). -/
theorem verify_hash_claimC3 (kdf : KDF) (p w : String) (config : PasswordConfig)
    (salt : List Nat) (hsalt : ∀ b ∈ salt, b < 256)
    (hbytes : ∀ pw s i m par k, ∀ b ∈ kdf pw s i m par k, b < 256)
    (hlen : ∀ pw s i m par k, (kdf pw s i m par k).length = k) :
    VerifyPassword kdf p (HashPasswordWithConfig kdf p config salt) = .ok true ∧
    (kdf w salt config.iterations config.memory config.parallelism config.keyLength ≠
        kdf p salt config.iterations config.memory config.parallelism config.keyLength →
      VerifyPassword kdf w (HashPasswordWithConfig kdf p config salt) = .ok false) := by
  have hdec := decodeHash_encodedHashChars config salt
    (kdf p salt config.iterations config.memory config.parallelism config.keyLength)
    hsalt (hbytes p salt config.iterations config.memory config.parallelism config.keyLength)
  constructor
  · simp only [VerifyPassword, HashPasswordWithConfig, hdec]
    rw [hlen p salt config.iterations config.memory config.parallelism config.keyLength]
    simp [constantTimeCompare]
  · intro hne
    simp only [VerifyPassword, HashPasswordWithConfig, hdec]
    rw [hlen p salt config.iterations config.memory config.parallelism config.keyLength]
    have hne' : kdf p salt config.iterations config.memory config.parallelism
        config.keyLength ≠ kdf w salt config.iterations config.memory
        config.parallelism config.keyLength := fun h => hne h.symm
    simp [constantTimeCompare, hne']

/-- A toy length-honest byte-valued key-derivation function used to witness
the claim C3 theorem at concrete inputs. -/
def toyKdf : KDF := fun pw s _ _ _ k =>
  List.replicate k ((pw.length + s.foldl (· + ·) 0) % 256)

/-- Witness for claim C3's theorem: with the default configuration and the
concrete salt [1, 250], the password aa verifies against its own hash and
the different password b does not. -/
theorem verify_hash_claimC3_witness :
    VerifyPassword toyKdf "aa"
      (HashPasswordWithConfig toyKdf "aa" DefaultPasswordConfig [1, 250]) = .ok true ∧
    VerifyPassword toyKdf "b"
      (HashPasswordWithConfig toyKdf "aa" DefaultPasswordConfig [1, 250]) = .ok false := by
  have h := verify_hash_claimC3 toyKdf "aa" "b" DefaultPasswordConfig [1, 250]
    (by decide)
    (by
      intro pw s i m par k b hb
      simp only [toyKdf] at hb
      have := List.eq_of_mem_replicate hb
      omega)
    (by
      intro pw s i m par k
      simp [toyKdf])
  exact ⟨h.1, h.2 (by decide)⟩

end Security
